import Mathlib

/-!
Shallow embedding of the pym package manager (src/src/semver.py, src/src/install.py,
src/src/package.py) in Lean 4, used to settle the frozen claims about the
natural-language specification.

Python strings are modelled as `List Char`; Python ints as `Int` (Python ints are
unbounded, so no wraparound is needed); Python exceptions as an `Except PyErr`
result.  Functions are translated from the source files; comments on each
definition name the Python function it embeds.
-/

/-- Errors a modelled Python computation can surface.  `versionParse` stands for
semver.VersionParseException, the others for the builtin Python exceptions and
the exceptions of src/exceptions.py that the claims mention. -/
inductive PyErr where
  | versionParse
  | valueError
  | typeError
  | keyError
  | stopIteration
  | installerNotFound
  deriving DecidableEq, Repr

instance {ε α : Type} [DecidableEq ε] [DecidableEq α] : DecidableEq (Except ε α) := fun x y =>
  match x, y with
  | .ok a, .ok b =>
    if h : a = b then .isTrue (by rw [h]) else .isFalse (fun hc => h (Except.ok.inj hc))
  | .ok _, .error _ => .isFalse (fun hc => Except.noConfusion hc)
  | .error _, .ok _ => .isFalse (fun hc => Except.noConfusion hc)
  | .error a, .error b =>
    if h : a = b then .isTrue (by rw [h]) else .isFalse (fun hc => h (Except.error.inj hc))

/-- Convert a Lean string literal to the `List Char` model of Python strings. -/
def s2l (s : String) : List Char := s.data

/-- Model of the whitespace set stripped by Python str.strip (ASCII part). -/
def isSpace (c : Char) : Bool :=
  c = ' ' || c = '\t' || c = '\n' || c = '\r' || c = '\x0b' || c = '\x0c'

/-- ASCII decimal digit test, as accepted by Python int(). -/
def isPyDigit (c : Char) : Bool := 48 ≤ c.toNat && c.toNat ≤ 57

/-- Numeric value of an ASCII digit character. -/
def charVal (c : Char) : Nat := c.toNat - 48

/-- ASCII digit character for a value below ten. -/
def digitChar (n : Nat) : Char := Char.ofNat (48 + n)

/-- Remove trailing characters satisfying p (helper for str.strip). -/
def dropTrailing (p : Char → Bool) (l : List Char) : List Char :=
  (l.reverse.dropWhile p).reverse

/-- Model of Python str.strip() with no argument: drop whitespace at both ends. -/
def pyStrip (l : List Char) : List Char := dropTrailing isSpace (l.dropWhile isSpace)

/-- Model of Python str.lstrip(chars): drop leading characters belonging to chars. -/
def pyLstrip (chars : List Char) (l : List Char) : List Char :=
  l.dropWhile (fun c => c ∈ chars)

/-- Model of Python str.partition(sep) for a one-character separator: the part
before the first occurrence and the part after it (empty when sep is absent,
which the callers treat the same way as Python treats the empty third field). -/
def pyPartitionChar (sep : Char) : List Char → List Char × List Char
  | [] => ([], [])
  | c :: rest =>
    if c = sep then ([], rest)
    else
      let p := pyPartitionChar sep rest
      (c :: p.1, p.2)

/-- Model of Python str.partition(sep) for a multi-character separator. -/
def pyPartitionList (sep : List Char) : List Char → List Char × List Char
  | [] => ([], [])
  | c :: rest =>
    if sep.isPrefixOf (c :: rest) then ([], (c :: rest).drop sep.length)
    else
      let p := pyPartitionList sep rest
      (c :: p.1, p.2)

/-- Model of Python str.split(sep) for a one-character separator.  Like Python,
the result is never empty: the empty string splits to one empty piece. -/
def pySplit (sep : Char) : List Char → List (List Char)
  | [] => [[]]
  | c :: rest =>
    match pySplit sep rest with
    | [] => [[]]
    | h :: t => if c = sep then [] :: h :: t else (c :: h) :: t

/-- Digit run of Python int(): after the first digit, digits may be separated by
single underscores; any other character rejects the literal. -/
def pyDigitsRun : List Char → Nat → Option Nat
  | [], acc => some acc
  | c :: rest, acc =>
    if isPyDigit c then pyDigitsRun rest (10 * acc + charVal c)
    else if c = '_' then
      match rest with
      | [] => none
      | d :: rest2 => if isPyDigit d then pyDigitsRun rest2 (10 * acc + charVal d) else none
    else none

/-- Unsigned part of Python int(): a nonempty digit run starting with a digit. -/
def pyDigitsStart : List Char → Option Nat
  | [] => none
  | c :: rest => if isPyDigit c then pyDigitsRun rest (charVal c) else none

/-- Signed part of Python int(), applied after whitespace stripping. -/
def pyIntCore : List Char → Option Int
  | [] => none
  | c :: rest =>
    if c = '+' then (pyDigitsStart rest).map Int.ofNat
    else if c = '-' then (pyDigitsStart rest).map (fun n => -(Int.ofNat n))
    else (pyDigitsStart (c :: rest)).map Int.ofNat

/-- Model of Python int(str): optional surrounding whitespace, optional sign,
then decimal digits with optional single underscores.  none models ValueError. -/
def pyIntParse (s : List Char) : Option Int :=
  pyIntCore (pyStrip s)

/-- Fuelled decimal printer (the fuel argument only bounds the recursion; it is
always called with enough fuel). -/
def natDigitsGo : Nat → Nat → List Char → List Char
  | 0, _, acc => acc
  | fuel + 1, n, acc =>
    if n < 10 then digitChar n :: acc
    else natDigitsGo fuel (n / 10) (digitChar (n % 10) :: acc)

/-- Decimal digits of a natural number, most significant first, as printed by
Python str(int) for a nonnegative value. -/
def natDigits (n : Nat) : List Char := natDigitsGo (n + 1) n []

/-- Model of Python str(int), signs included. -/
def intRepr (n : Int) : List Char :=
  if n < 0 then '-' :: natDigits (-n).toNat else natDigits n.toNat

/-- Model of Python string comparison < (lexicographic on code points). -/
def strLt : List Char → List Char → Bool
  | [], [] => false
  | [], _ :: _ => true
  | _ :: _, [] => false
  | a :: as, b :: bs =>
    if a.toNat < b.toNat then true
    else if b.toNat < a.toNat then false
    else strLt as bs

/-!  ## Version (semver.py, class Version)  -/

/-- The state of a semver.Version object: the four entries of its segments
OrderedDict plus the partial flag computed by the constructor (named
isIncomplete here because the Python name is a Lean keyword). -/
structure Version where
  major : Int
  minor : Int
  patch : Int
  build : List Char
  isIncomplete : Bool
  deriving DecidableEq, Repr

/-- Python `x or 0` for an optional int (None and 0 both give 0). -/
def orZero (x : Option Int) : Int := x.getD 0

/-- Version.__init__: each numeric segment defaults missing (or zero) values to
zero, and the partial flag records whether minor or patch was None. -/
def Version.init (major minor patch : Option Int) (build : List Char) : Version :=
  { major := orZero major
    minor := orZero minor
    patch := orZero patch
    build := build
    isIncomplete := minor.isNone || patch.isNone }

/-- Version.__str__: major.minor.patch, then -build when build is nonempty. -/
def Version.str (v : Version) : List Char :=
  intRepr v.major ++ '.' :: intRepr v.minor ++ '.' :: intRepr v.patch ++
    (if v.build = [] then [] else '-' :: v.build)

/-- Version.__eq__: equality of the printed forms. -/
def Version.pyEq (a b : Version) : Bool := Version.str a = Version.str b

/-- Version.__lt__: walk the segments in order (major, minor, patch, build);
the first strict difference decides, equality everywhere gives false. -/
def Version.lt (a b : Version) : Bool :=
  if a.major < b.major then true
  else if b.major < a.major then false
  else if a.minor < b.minor then true
  else if b.minor < a.minor then false
  else if a.patch < b.patch then true
  else if b.patch < a.patch then false
  else if strLt a.build b.build then true
  else if strLt b.build a.build then false
  else false

/-- Version.__le__ as produced by functools.total_ordering from lt and eq. -/
def Version.pyLe (a b : Version) : Bool := Version.lt a b || Version.pyEq a b

/-- Version.__gt__ as produced by functools.total_ordering from lt and eq. -/
def Version.pyGt (a b : Version) : Bool := !(Version.lt a b || Version.pyEq a b)

/-- Version.__ge__ as produced by functools.total_ordering from lt. -/
def Version.pyGe (a b : Version) : Bool := !Version.lt a b

/-- Version.clean: strip whitespace, then strip leading = and v characters. -/
def Version.clean (s : List Char) : List Char := pyLstrip ['=', 'v'] (pyStrip s)

/-- The expression int(next(parts, 0)) of Version.parse: a present piece goes
through int() (none modelling ValueError), a missing piece gives 0. -/
def segParse (piece : Option (List Char)) : Option Int :=
  match piece with
  | some p => pyIntParse p
  | none => some 0

/-- Python `x or None` for an int: zero collapses to None. -/
def orNone (x : Int) : Option Int := if x = 0 then none else some x

/-- Core of Version.parse after cleaning and splitting: take up to three integer
components (int failures become VersionParseException) and build the Version;
minor and patch go through `or None`, conflating zero with missing. -/
def parseParts (parts : List (List Char)) (build : List Char) : Except PyErr Version :=
  match parts with
  | [] => .error .versionParse
  | p0 :: rest =>
    match pyIntParse p0, segParse rest[0]?, segParse rest[1]? with
    | some ma, some mi, some pa =>
      .ok (Version.init (some ma) (orNone mi) (orNone pa) build)
    | _, _, _ => .error .versionParse

/-- Version.parse: clean, split off the build tag at the first dash, split the
primary part on dots and parse the components. -/
def Version.parse (s : List Char) : Except PyErr Version :=
  parseParts
    (pySplit '.' (pyPartitionChar '-' (Version.clean s)).1)
    (pyPartitionChar '-' (Version.clean s)).2

/-- Version.inc for the minor release: zero the following primary segments and
bump minor; the build tag and the partial flag are untouched. -/
def Version.incMinor (v : Version) : Version :=
  { v with minor := v.minor + 1, patch := 0 }

/-- Version.inc for the major release: zero the following primary segments and
bump major; the build tag and the partial flag are untouched. -/
def Version.incMajor (v : Version) : Version :=
  { v with major := v.major + 1, minor := 0, patch := 0 }

/-- Version.__copy__: rebuilds through the constructor, so the partial flag is
recomputed from the concrete (never None) segment values and becomes false. -/
def Version.copy (v : Version) : Version :=
  Version.init (some v.major) (some v.minor) (some v.patch) v.build

/-!  ## Comparator (semver.py, class Comparator)  -/

/-- The five comparison operators a Comparator can carry.  The Python field is a
string, but every construction site uses exactly these five literals (any other
string would raise KeyError in the operation and direction maps), so an
enumeration is a faithful model. -/
inductive Op where
  | lt
  | le
  | eq
  | gt
  | ge
  deriving DecidableEq, Repr

/-- Printed form of an operator. -/
def Op.str : Op → List Char
  | .lt => ['<']
  | .le => ['<', '=']
  | .eq => ['=']
  | .gt => ['>']
  | .ge => ['>', '=']

/-- Comparator: an operator together with a version. -/
structure Comparator where
  operator : Op
  version : Version
  deriving DecidableEq, Repr

/-- Comparator.direction: the direction map of the source. -/
def Comparator.direction (c : Comparator) : Int :=
  match c.operator with
  | .lt => -2
  | .le => -1
  | .eq => 0
  | .gt => 1
  | .ge => 2

/-- Comparator.satisfies via the operation map: the version under test is the
left operand and the stored version the right one, so the map looks reversed
(< uses __gt__ of the stored version, and so on). -/
def Comparator.satisfies (c : Comparator) (v : Version) : Bool :=
  match c.operator with
  | .lt => Version.pyGt c.version v
  | .le => Version.pyGe c.version v
  | .eq => Version.pyEq c.version v
  | .gt => Version.lt c.version v
  | .ge => Version.pyLe c.version v

/-- Comparator.__lt__: equal directions compare the versions (reversed for the
lower-like side), different directions compare the directions. -/
def Comparator.pyLt (a b : Comparator) : Bool :=
  if a.direction = b.direction then
    if a.direction < 0 then Version.lt a.version b.version
    else Version.lt b.version a.version
  else decide (a.direction < b.direction)

/-- Python sorted on a two-element list (stable, ascending by __lt__). -/
def sorted2 (a b : Comparator) : Comparator × Comparator :=
  if Comparator.pyLt b a then (b, a) else (a, b)

/-- Python sorted with reverse=True on a two-element list (stable, descending). -/
def sorted2Rev (a b : Comparator) : Comparator × Comparator :=
  if Comparator.pyLt a b then (b, a) else (a, b)

/-- VersionRange: a lower comparator and an optional upper comparator. -/
structure VersionRange where
  lower : Comparator
  upper : Option Comparator
  deriving DecidableEq, Repr

/-- Comparator.intersection, translated branch for branch from the if/elif
chain of the source (the debug print is omitted). -/
def Comparator.intersection (self other : Comparator) : Option VersionRange :=
  if self.direction = 0 ∧ other.satisfies self.version = true then
    some ⟨self, none⟩
  else if other.direction = 0 ∧ self.satisfies other.version = true then
    some ⟨other, none⟩
  else if (self.direction < 0 ∧ other.direction < 0) ∨
      (0 ≤ self.direction ∧ 0 ≤ other.direction) then
    let p := sorted2 self other
    if p.2.satisfies p.1.version = true then some ⟨p.1, none⟩ else none
  else if self.satisfies other.version = true ∧ other.satisfies self.version = true then
    let p := sorted2Rev self other
    some ⟨p.1, some p.2⟩
  else none

/-- Comparator.intersects. -/
def Comparator.intersects (self other : Comparator) : Bool :=
  (Comparator.intersection self other).isSome

/-- The scan of re.search for the operator pattern of Comparator.parse: at each
position the alternatives <=, <, >= and > are tried in order. -/
def searchOp : List Char → Option Op
  | [] => none
  | '<' :: '=' :: _ => some .le
  | '<' :: _ => some .lt
  | '>' :: '=' :: _ => some .ge
  | '>' :: _ => some .gt
  | _ :: rest => searchOp rest

/-- The character set str.lstrip receives for each matched operator string. -/
def opChars : Op → List Char
  | .lt => ['<']
  | .le => ['<', '=']
  | .eq => ['=']
  | .gt => ['>']
  | .ge => ['>', '=']

/-- Comparator.parse: find an operator anywhere in the string (default =), strip
the operator characters from the front and parse the rest as a Version. -/
def Comparator.parse (v : List Char) : Except PyErr Comparator :=
  match searchOp v with
  | some op =>
    match Version.parse (pyLstrip (opChars op) v) with
    | .ok ver => .ok ⟨op, ver⟩
    | .error e => .error e
  | none =>
    match Version.parse v with
    | .ok ver => .ok ⟨.eq, ver⟩
    | .error e => .error e

/-!  ## Range parsing (semver.py, VersionRange and its parse subclasses)  -/

/-- VersionRange.__contains__ for a Version argument. -/
def VersionRange.containsVersion (r : VersionRange) (v : Version) : Bool :=
  r.lower.satisfies v &&
    (match r.upper with
     | none => true
     | some u => u.satisfies v)

/-- HyphenRange.parse: split on the hyphen separator; the lower bound is
inclusive and the upper bound is exclusive exactly when the upper literal
parsed as partial. -/
def HyphenRange.parse (v : List Char) : Except PyErr VersionRange :=
  let pr := pyPartitionList (s2l (" - ")) v
  match Version.parse pr.1 with
  | .error e => .error e
  | .ok vl =>
    match Version.parse pr.2 with
    | .error e => .error e
    | .ok vu =>
      .ok ⟨⟨.ge, vl⟩, some ⟨if vu.isIncomplete then .lt else .le, vu⟩⟩

/-- Loop of XRange.parse: walk the dot pieces, filling consecutive primary
segments of two fresh Version() objects until an x piece is met; the upper
bound bumps the segment assigned last.  A fourth numeric piece exhausts the
segment iterator (StopIteration); a non-numeric piece raises ValueError; a
loop that finishes raises VersionParseException. -/
def XRange.go : List (List Char) → Nat → Int → Int → Int → Except PyErr VersionRange
  | [], _, _, _, _ => .error .versionParse
  | piece :: rest, idx, ma, mi, pa =>
    if piece = ['*'] ∨ piece = ['x'] ∨ piece = ['X'] then
      let lower : Comparator :=
        ⟨.ge, { major := ma, minor := mi, patch := pa, build := [], isIncomplete := true }⟩
      match idx with
      | 0 => .ok ⟨lower, none⟩
      | 1 => .ok ⟨lower, some ⟨.lt,
          { major := ma + 1, minor := mi, patch := pa, build := [], isIncomplete := true }⟩⟩
      | 2 => .ok ⟨lower, some ⟨.lt,
          { major := ma, minor := mi + 1, patch := pa, build := [], isIncomplete := true }⟩⟩
      | _ => .ok ⟨lower, some ⟨.lt,
          { major := ma, minor := mi, patch := pa + 1, build := [], isIncomplete := true }⟩⟩
    else
      match idx with
      | 3 => .error .stopIteration
      | _ =>
        match pyIntParse piece with
        | none => .error .valueError
        | some n =>
          match idx with
          | 0 => XRange.go rest 1 n mi pa
          | 1 => XRange.go rest 2 ma n pa
          | _ => XRange.go rest 3 ma mi n

/-- XRange.parse. -/
def XRange.parse (v : List Char) : Except PyErr VersionRange :=
  XRange.go (pySplit '.' v) 0 0 0 0

/-- TildeRange.parse: inclusive lower bound at the parsed version, exclusive
upper bound at the next minor (or next major when minor and patch are zero),
computed on a copy. -/
def TildeRange.parse (v : List Char) : Except PyErr VersionRange :=
  match Version.parse (pyLstrip ['~'] v) with
  | .error e => .error e
  | .ok vl =>
    let vu0 := Version.copy vl
    let vu := if vu0.minor ≠ 0 ∨ vu0.patch ≠ 0 then vu0.incMinor else vu0.incMajor
    .ok ⟨⟨.ge, vl⟩, some ⟨.lt, vu⟩⟩

/-- CaretRange.parse: inclusive lower bound at the parsed version; the upper
bound starts from a fresh Version() and bumps the first segment of the parsed
version that differs from 0.  When major, minor and patch are all zero the
loop reaches the build segment: a Python str (the empty string included) is
unequal to the int 0, and str + 1 then raises TypeError. -/
def CaretRange.parse (v : List Char) : Except PyErr VersionRange :=
  match Version.parse (pyLstrip ['^'] v) with
  | .error e => .error e
  | .ok vl =>
    let lower : Comparator := ⟨.ge, vl⟩
    if vl.major ≠ 0 then
      .ok ⟨lower, some ⟨.lt,
        { major := vl.major + 1, minor := 0, patch := 0, build := [], isIncomplete := true }⟩⟩
    else if vl.minor ≠ 0 then
      .ok ⟨lower, some ⟨.lt,
        { major := 0, minor := vl.minor + 1, patch := 0, build := [], isIncomplete := true }⟩⟩
    else if vl.patch ≠ 0 then
      .ok ⟨lower, some ⟨.lt,
        { major := 0, minor := 0, patch := vl.patch + 1, build := [], isIncomplete := true }⟩⟩
    else
      .error .typeError

/-- The x-piece test of VersionRange.parse: some dot piece of the literal is
exactly *, x or X. -/
def hasXPiece (v : List Char) : Bool :=
  let pieces := pySplit '.' v
  pieces.contains ['*'] || pieces.contains ['x'] || pieces.contains ['X']

/-- VersionRange.parse: dispatch on the shape of the literal in source order
(hyphen pair, explicit two-comparator pair, x-range, tilde, caret, plain);
a plain literal with operator = duplicates itself as its own upper bound. -/
def VersionRange.parse (v : List Char) : Except PyErr VersionRange :=
  if (pyPartitionList (s2l (" - ")) v).2 ≠ [] then HyphenRange.parse v
  else
    let sp := pyPartitionChar ' ' v
    if sp.2 ≠ [] then
      match Comparator.parse sp.1 with
      | .error e => .error e
      | .ok cl =>
        match Comparator.parse sp.2 with
        | .error e => .error e
        | .ok cu => .ok ⟨cl, some cu⟩
    else if hasXPiece v then XRange.parse v
    else if List.isPrefixOf ['~'] v then TildeRange.parse v
    else if List.isPrefixOf ['^'] v then CaretRange.parse v
    else
      match Comparator.parse v with
      | .error e => .error e
      | .ok cl =>
        if cl.operator = Op.eq then
          match Comparator.parse v with
          | .error e => .error e
          | .ok cu => .ok ⟨cl, some cu⟩
        else .ok ⟨cl, none⟩

/-!  ## Dependency graph (install.py, class DependencyGraph)  -/

/-- The defaultdict(list) of DependencyGraph, in insertion order. -/
abbrev DepGraph := List (List Char × List VersionRange)

/-- Append a parsed range under a name, creating the entry on first use. -/
def depAppend (g : DepGraph) (name : List Char) (vr : VersionRange) : DepGraph :=
  match g with
  | [] => [(name, [vr])]
  | (n, rs) :: t =>
    if n = name then (n, rs ++ [vr]) :: t else (n, rs) :: depAppend t name vr

/-- DependencyGraph.add: parse the range literal and append it under the name. -/
def DependencyGraph.add (g : DepGraph) (name version_range : List Char) :
    Except PyErr DepGraph :=
  match VersionRange.parse version_range with
  | .error e => .error e
  | .ok vr => .ok (depAppend g name vr)

/-- The attribute call a.intersection(r) inside DependencyGraph.resolve.  The
class body of VersionRange defines intersection twice: an instance method
(taking self and other) and, further down, a classmethod taking cls, r1 and r2.
The later definition shadows the earlier one, so the bound call receives only
r1 and Python raises TypeError for the missing argument r2. -/
def VersionRange.intersectionCall (_a _r : VersionRange) : Except PyErr VersionRange :=
  .error .typeError

/-- functools.reduce over a list of ranges with the lambda of resolve: an empty
list raises TypeError, a singleton returns its element without calling the
lambda, anything longer folds the (always failing) intersection call. -/
def pyReduce : List VersionRange → Except PyErr VersionRange
  | [] => .error .typeError
  | r :: rest => rest.foldlM (fun a b => VersionRange.intersectionCall a b) r

/-- DependencyGraph.resolve: reduce each name entry by the intersection call. -/
def DependencyGraph.resolve (g : DepGraph) :
    Except PyErr (List (List Char × VersionRange)) :=
  match g with
  | [] => .ok []
  | (n, rs) :: t =>
    match pyReduce rs with
    | .error e => .error e
    | .ok r =>
      match DependencyGraph.resolve t with
      | .error e => .error e
      | .ok rest => .ok ((n, r) :: rest)

/-!  ## Package references and installers (package.py, install.py)  -/

/-- The fields PackageInfo.parse fills; version_range is added later by the git
discriminator (absent models a missing dict key). -/
structure PackageInfo where
  reference : List Char
  name : List Char
  version : List Char
  source : List Char
  version_range : Option (List Char)
  deriving DecidableEq, Repr

/-- Index of the last occurrence of a character, if any (str.rfind). -/
def rfindIdx (c : Char) (l : List Char) : Option Nat :=
  match l.reverse.findIdx? (fun x => decide (x = c)) with
  | none => none
  | some i => some (l.length - 1 - i)

/-- os.path.basename for forward-slash paths: the part after the last slash. -/
def basename (s : List Char) : List Char :=
  match rfindIdx '/' s with
  | none => s
  | some i => s.drop (i + 1)

/-- Root part of os.path.splitext on a basename: cut at the last dot provided a
character other than a dot stands before it (leading dots never start an
extension). -/
def splitextRoot (p : List Char) : List Char :=
  match rfindIdx '.' p with
  | none => p
  | some i => if (p.take i).any (fun c => decide (c ≠ '.')) then p.take i else p

/-- PackageInfo.parse: split reference at the delimiter into source and version;
the name is the extension-stripped basename of the source. -/
def PackageInfo.parse (reference : List Char) (delim : Char) : PackageInfo :=
  let pr := pyPartitionChar delim reference
  { reference := reference
    name := splitextRoot (basename pr.1)
    version := pr.2
    source := pr.1
    version_range := none }

/-- re.sub of an anchored literal prefix with the empty string: drop one
occurrence of the prefix when present. -/
def stripPrefixOnce (pre l : List Char) : List Char :=
  if pre.isPrefixOf l then l.drop pre.length else l

/-- GitInstaller.can_install_reference: accept when the part before # ends in
.git or the reference starts with git+ (stripped before parsing); fill in
version_range as git+ plus the reference. -/
def GitInstaller.can_install_reference (reference : List Char) : Option PackageInfo :=
  let source := (pyPartitionChar '#' reference).1
  if List.isSuffixOf (s2l (".git")) source || List.isPrefixOf (s2l ("git+")) source then
    let reference2 := stripPrefixOnce (s2l ("git+")) reference
    let info := PackageInfo.parse reference2 '#'
    some { info with version_range := some (s2l ("git+") ++ info.reference) }
  else none

/-- PypiInstaller.can_install_reference: strip an optional pypi+ prefix and
parse at the @ delimiter; every reference is accepted. -/
def PypiInstaller.can_install_reference (reference : List Char) : Option PackageInfo :=
  some (PackageInfo.parse (stripPrefixOnce (s2l ("pypi+")) reference) '@')

/-- The two installer classes registered by InstallCommand.make, in order. -/
inductive InstallerKind where
  | git
  | pypi
  deriving DecidableEq, Repr

/-- Dispatch of i.can_install_reference on the installer class. -/
def canInstallReference : InstallerKind → List Char → Option PackageInfo
  | .git, r => GitInstaller.can_install_reference r
  | .pypi, r => PypiInstaller.can_install_reference r

/-- InstallCommand.find_ref_installer: first installer whose discriminator
accepts the reference.  When none accepts, the for loop finishes and the
function returns None: the except StopIteration handler around the loop (the
only place that raises InstallerNotFoundException) can never fire, because
iterating a list inside a for statement never surfaces StopIteration; hence
the result is always ok, never an installerNotFound error. -/
def InstallCommand.find_ref_installer (installers : List InstallerKind)
    (reference : List Char) : Except PyErr (Option (InstallerKind × PackageInfo)) :=
  match installers with
  | [] => .ok none
  | i :: rest =>
    match canInstallReference i reference with
    | some info => .ok (some (i, info))
    | none => InstallCommand.find_ref_installer rest reference

/-!  ## Project manifest (package.py, PymPackage)  -/

/-- JSON-ish values stored in a manifest. -/
inductive PyVal where
  | str : List Char → PyVal
  | obj : List (List Char × PyVal) → PyVal

instance : Inhabited PyVal := ⟨PyVal.obj []⟩

/-- A Python dict modelled as a key-unique association list. -/
abbrev PyDict := List (List Char × PyVal)

/-- Dictionary lookup (first binding of the key). -/
def pyDictGet (d : PyDict) (k : List Char) : Option PyVal :=
  (d.find? (fun q => decide (q.1 = k))).map (fun q => q.2)

/-- Python {**a, **b}: all keys of both, values of b winning on overlap. -/
def dictMerge (a b : PyDict) : PyDict :=
  a.filter (fun p => !(b.any (fun q => decide (q.1 = p.1)))) ++ b

/-- DEFAULT_VALUES of package.py: only the staging and install locations
(os.path.join rendered with the forward-slash separator). -/
def DEFAULT_VALUES : PyDict :=
  [(s2l ("staging_location"), .str (s2l ("pym_packages/.staging"))),
   (s2l ("install_location"), .str (s2l ("pym_packages")))]

/-- PymPackage.load, with the file read and JSON decoding elided: the config
object of pym.json is merged over DEFAULT_VALUES, present keys winning. -/
def PymPackage.load (config : PyDict) : PyDict :=
  dictMerge DEFAULT_VALUES config

/-- PymPackage.__getitem__: dict indexing, KeyError when the key is absent. -/
def PymPackage.getItem (pkg : PyDict) (k : List Char) : Except PyErr PyVal :=
  match pyDictGet pkg k with
  | some v => .ok v
  | none => .error .keyError

/-!  ## Uninstall orchestrator (install.py, UninstallCommand.run)  -/

/-- State touched by UninstallCommand.run: the set of package directories under
install_location (by name), the dependencies mapping of the project config,
the cli messages and whether project.save() has run. -/
structure UninstallState where
  dirs : List (List Char)
  deps : List (List Char × List Char)
  warnings : List (List Char)
  debugMsgs : List (List Char)
  successes : List (List Char)
  saved : Bool
  deriving DecidableEq, Repr

/-- Membership of a name among the existing directories. -/
def hasDir (st : UninstallState) (name : List Char) : Bool :=
  st.dirs.any (fun d => decide (d = name))

/-- Membership of a key in the dependencies mapping. -/
def depsHasKey (deps : List (List Char × List Char)) (k : List Char) : Bool :=
  deps.any (fun p => decide (p.1 = k))

/-- One iteration of the loop of UninstallCommand.run: rmtree the directory
(FileNotFoundError warns and changes nothing), then under --save delete the
dependency key (KeyError logs a debug line instead of the success line). -/
def uninstallStep (save : Bool) (st : UninstallState) (removable : List Char) :
    UninstallState :=
  if hasDir st removable then
    let st1 := { st with dirs := st.dirs.filter (fun d => decide (d ≠ removable)) }
    if save then
      if depsHasKey st1.deps removable then
        { st1 with deps := st1.deps.filter (fun p => decide (p.1 ≠ removable)),
                   successes := st1.successes ++ [removable] }
      else
        { st1 with debugMsgs := st1.debugMsgs ++ [removable] }
    else
      { st1 with successes := st1.successes ++ [removable] }
  else
    { st with warnings := st.warnings ++ [removable] }

/-- UninstallCommand.run: process every requested package, then persist the
manifest with project.save(). -/
def UninstallCommand.run (save : Bool) (packages : List (List Char))
    (st : UninstallState) : UninstallState :=
  let st2 := packages.foldl (uninstallStep save) st
  { st2 with saved := true }

/-!  ## Spec-side definitions used to state claims  -/

/-- The upper bound claim C7 describes for a caret range: increment the first
nonzero primary segment of A and zero the rest.  The partial flag of the
synthesized bound is the one the code leaves on a fresh Version(), i.e. true;
the claim says nothing about it. -/
def caretUpperSpec (A : Version) : Version :=
  if A.major ≠ 0 then
    { major := A.major + 1, minor := 0, patch := 0, build := [], isIncomplete := true }
  else if A.minor ≠ 0 then
    { major := 0, minor := A.minor + 1, patch := 0, build := [], isIncomplete := true }
  else
    { major := 0, minor := 0, patch := A.patch + 1, build := [], isIncomplete := true }

/-!  ## Basic lemmas about the version order  -/

theorem strLt_self (l : List Char) : strLt l l = false := by
  induction l with
  | nil => rfl
  | cons c t ih => simp [strLt, ih]

theorem Version.lt_self (v : Version) : Version.lt v v = false := by
  simp [Version.lt, strLt_self]

theorem Version.pyEq_self (v : Version) : Version.pyEq v v = true := by
  simp [Version.pyEq]

/-!  ## Claim C6  -/

/-- C6: for every version v, the intersection of the strict comparators >v and
<v is empty (none), not a degenerate range; both call orders are covered. -/
theorem C6_strict_pair_intersection_empty (v : Version) :
    Comparator.intersection ⟨Op.gt, v⟩ ⟨Op.lt, v⟩ = none ∧
    Comparator.intersection ⟨Op.lt, v⟩ ⟨Op.gt, v⟩ = none := by
  constructor <;>
    simp [Comparator.intersection, Comparator.direction, Comparator.satisfies,
      Version.lt_self, Version.pyEq_self, Version.pyGt]

/-!  ## Claim C4  -/

/-- C4: for every pair of comparators with one lower-like (positive direction,
operators > and >=) and one upper-like (negative direction, operators < and
<=), Comparator.intersection gives the range (lower, upper) when each
comparator satisfies the version of the other, and none otherwise; both call
orders produce the same result. -/
theorem C4_mixed_direction_intersection (c1 c2 : Comparator)
    (h1 : 0 < c1.direction) (h2 : c2.direction < 0) :
    (c1.satisfies c2.version = true → c2.satisfies c1.version = true →
      Comparator.intersection c1 c2 = some ⟨c1, some c2⟩ ∧
      Comparator.intersection c2 c1 = some ⟨c1, some c2⟩) ∧
    (¬(c1.satisfies c2.version = true ∧ c2.satisfies c1.version = true) →
      Comparator.intersection c1 c2 = none ∧
      Comparator.intersection c2 c1 = none) := by
  have hb1 : ¬(c1.direction = 0 ∧ c2.satisfies c1.version = true) := by
    rintro ⟨h, -⟩; omega
  have hb2 : ¬(c2.direction = 0 ∧ c1.satisfies c2.version = true) := by
    rintro ⟨h, -⟩; omega
  have hb3 : ¬((c1.direction < 0 ∧ c2.direction < 0) ∨
      (0 ≤ c1.direction ∧ 0 ≤ c2.direction)) := by
    rintro (⟨h, -⟩ | ⟨-, h⟩) <;> omega
  have hb3r : ¬((c2.direction < 0 ∧ c1.direction < 0) ∨
      (0 ≤ c2.direction ∧ 0 ≤ c1.direction)) := by
    rintro (⟨-, h⟩ | ⟨h, -⟩) <;> omega
  have hne : ¬(c1.direction = c2.direction) := by omega
  have hner : ¬(c2.direction = c1.direction) := by omega
  have hlt12 : Comparator.pyLt c1 c2 = false := by
    rw [Comparator.pyLt, if_neg hne]
    exact decide_eq_false (by omega)
  have hlt21 : Comparator.pyLt c2 c1 = true := by
    rw [Comparator.pyLt, if_neg hner]
    exact decide_eq_true (by omega)
  have hs12 : sorted2Rev c1 c2 = (c1, c2) := by
    rw [sorted2Rev, hlt12]; simp
  have hs21 : sorted2Rev c2 c1 = (c1, c2) := by
    rw [sorted2Rev, hlt21]; simp
  constructor
  · intro hx hy
    constructor
    · simp only [Comparator.intersection, if_neg hb1, if_neg hb2, if_neg hb3,
        if_pos (And.intro hx hy), hs12]
    · simp only [Comparator.intersection, if_neg hb2, if_neg hb1, if_neg hb3r,
        if_pos (And.intro hy hx), hs21]
  · intro hxy
    have hxyr : ¬(c2.satisfies c1.version = true ∧ c1.satisfies c2.version = true) := by
      rintro ⟨ha, hb⟩; exact hxy ⟨hb, ha⟩
    constructor
    · simp only [Comparator.intersection, if_neg hb1, if_neg hb2, if_neg hb3,
        if_neg hxy]
    · simp only [Comparator.intersection, if_neg hb2, if_neg hb1, if_neg hb3r,
        if_neg hxyr]

/-- Witness for C4, at the concrete pairs of the claim: <=1.2.3 with >=0.5.0
gives the range (>=0.5.0, <=1.2.3), and <=1.2.3 with >=4.0.0 gives none. -/
theorem C4_witness :
    Comparator.intersection
        ⟨Op.le, { major := 1, minor := 2, patch := 3, build := [], isIncomplete := false }⟩
        ⟨Op.ge, { major := 0, minor := 5, patch := 0, build := [], isIncomplete := true }⟩ =
      some ⟨⟨Op.ge, { major := 0, minor := 5, patch := 0, build := [], isIncomplete := true }⟩,
        some ⟨Op.le, { major := 1, minor := 2, patch := 3, build := [], isIncomplete := false }⟩⟩ ∧
    Comparator.intersection
        ⟨Op.le, { major := 1, minor := 2, patch := 3, build := [], isIncomplete := false }⟩
        ⟨Op.ge, { major := 4, minor := 0, patch := 0, build := [], isIncomplete := true }⟩ =
      none := by
  constructor
  · exact ((C4_mixed_direction_intersection
      ⟨Op.ge, { major := 0, minor := 5, patch := 0, build := [], isIncomplete := true }⟩
      ⟨Op.le, { major := 1, minor := 2, patch := 3, build := [], isIncomplete := false }⟩
      (by decide) (by decide)).1 (by decide) (by decide)).2
  · exact ((C4_mixed_direction_intersection
      ⟨Op.ge, { major := 4, minor := 0, patch := 0, build := [], isIncomplete := true }⟩
      ⟨Op.le, { major := 1, minor := 2, patch := 3, build := [], isIncomplete := false }⟩
      (by decide) (by decide)).2 (by decide)).2

/-!  ## Claim C1  -/

/-- C1 (code bug witness): adding two ranges under one name and resolving does
not produce the folded intersection the spec describes; the call
a.intersection(r) hits the two-argument classmethod that shadows the instance
method and raises TypeError. -/
theorem C1_resolve_raises_typeerror :
    (DependencyGraph.add [] (s2l ("foo")) (s2l (">=1.0.0")) >>= fun g1 =>
     DependencyGraph.add g1 (s2l ("foo")) (s2l ("^1.2.0")) >>= fun g2 =>
     DependencyGraph.resolve g2) = Except.error PyErr.typeError := by decide

/-!  ## Claim C5  -/

/-- C5 (code bug witness): when no installer in the list claims the reference,
find_ref_installer returns None (ok none) instead of raising
InstallerNotFoundException: the for loop just finishes and the StopIteration
handler that would raise it never fires. -/
theorem C5_lookup_returns_none_not_error :
    GitInstaller.can_install_reference (s2l ("leftpad")) = none ∧
    InstallCommand.find_ref_installer [InstallerKind.git] (s2l ("leftpad")) =
      Except.ok none := by decide

/-!  ## Claims C10 and C7  -/

/-- C10: for every caret literal whose version parses with major, minor and
patch all zero, CaretRange.parse raises TypeError: the segment loop reaches
the build entry, a str compares unequal to the int 0, and str + 1 fails. -/
theorem C10_caret_all_zero_typeerror (v : List Char) (A : Version)
    (hA : Version.parse (pyLstrip ['^'] v) = .ok A)
    (hma : A.major = 0) (hmi : A.minor = 0) (hpa : A.patch = 0) :
    CaretRange.parse v = .error .typeError := by
  simp only [CaretRange.parse, hA]
  simp [hma, hmi, hpa]

/-- Witness for C10 at the caret literals of the claim. -/
theorem C10_witness :
    CaretRange.parse (s2l ("^0")) = Except.error PyErr.typeError ∧
    CaretRange.parse (s2l ("^0.0.0")) = Except.error PyErr.typeError := by
  constructor
  · exact C10_caret_all_zero_typeerror (s2l ("^0"))
      { major := 0, minor := 0, patch := 0, build := [], isIncomplete := true }
      (by decide) rfl rfl rfl
  · exact C10_caret_all_zero_typeerror (s2l ("^0.0.0"))
      { major := 0, minor := 0, patch := 0, build := [], isIncomplete := true }
      (by decide) rfl rfl rfl

/-- C7 counterexample: the caret literal ^0 is parseable (its version parses),
yet VersionRange.parse does not return a range at all: it raises TypeError, so
the claim as stated fails at this literal. -/
theorem C7_counterexample :
    Version.parse (pyLstrip ['^'] (s2l ("^0"))) =
      Except.ok { major := 0, minor := 0, patch := 0, build := [], isIncomplete := true } ∧
    VersionRange.parse (s2l ("^0")) = Except.error PyErr.typeError := by decide

/-- C7 (amended): for every caret literal that the range parser dispatches to
the caret branch (no hyphen pair, no space pair, no x piece, leading caret),
whose version A parses and has some nonzero primary segment, VersionRange.parse
returns the range (>=A, <B) where B increments the first nonzero primary
segment of A and zeroes the rest. -/
theorem C7_caret_range (v : List Char) (A : Version)
    (hhy : (pyPartitionList (s2l (" - ")) v).2 = [])
    (hsp : (pyPartitionChar ' ' v).2 = [])
    (hx : hasXPiece v = false)
    (hcar : List.isPrefixOf ['^'] v = true)
    (hA : Version.parse (pyLstrip ['^'] v) = .ok A)
    (hnz : A.major ≠ 0 ∨ A.minor ≠ 0 ∨ A.patch ≠ 0) :
    VersionRange.parse v = .ok ⟨⟨Op.ge, A⟩, some ⟨Op.lt, caretUpperSpec A⟩⟩ ∧
    CaretRange.parse v = .ok ⟨⟨Op.ge, A⟩, some ⟨Op.lt, caretUpperSpec A⟩⟩ := by
  have htilde : List.isPrefixOf ['~'] v = false := by
    cases v with
    | nil => simp [List.isPrefixOf] at hcar
    | cons c t =>
      have hc : '^' = c := by simpa [List.isPrefixOf] using hcar
      subst hc
      simp [List.isPrefixOf]
  have hcr : CaretRange.parse v = .ok ⟨⟨Op.ge, A⟩, some ⟨Op.lt, caretUpperSpec A⟩⟩ := by
    simp only [CaretRange.parse, hA]
    by_cases h1 : A.major = 0
    · by_cases h2 : A.minor = 0
      · have h3 : A.patch ≠ 0 := by tauto
        simp [caretUpperSpec, h1, h2, h3]
      · simp [caretUpperSpec, h1, h2]
    · simp [caretUpperSpec, h1]
  refine ⟨?_, hcr⟩
  simp only [VersionRange.parse, hhy, hsp, hx, htilde, hcar]
  simpa using hcr

/-- Witness for C7 at the three caret literals of the claim. -/
theorem C7_witness :
    VersionRange.parse (s2l ("^1.2.3")) = Except.ok
      ⟨⟨Op.ge, { major := 1, minor := 2, patch := 3, build := [], isIncomplete := false }⟩,
       some ⟨Op.lt, { major := 2, minor := 0, patch := 0, build := [], isIncomplete := true }⟩⟩ ∧
    VersionRange.parse (s2l ("^0.2.3")) = Except.ok
      ⟨⟨Op.ge, { major := 0, minor := 2, patch := 3, build := [], isIncomplete := false }⟩,
       some ⟨Op.lt, { major := 0, minor := 3, patch := 0, build := [], isIncomplete := true }⟩⟩ ∧
    VersionRange.parse (s2l ("^0.0.3")) = Except.ok
      ⟨⟨Op.ge, { major := 0, minor := 0, patch := 3, build := [], isIncomplete := true }⟩,
       some ⟨Op.lt, { major := 0, minor := 0, patch := 4, build := [], isIncomplete := true }⟩⟩ := by
  refine ⟨?_, ?_, ?_⟩
  · exact ((C7_caret_range (s2l ("^1.2.3"))
      { major := 1, minor := 2, patch := 3, build := [], isIncomplete := false }
      (by decide) (by decide) (by decide) (by decide) (by decide) (by decide)).1).trans
      (by decide)
  · exact ((C7_caret_range (s2l ("^0.2.3"))
      { major := 0, minor := 2, patch := 3, build := [], isIncomplete := false }
      (by decide) (by decide) (by decide) (by decide) (by decide) (by decide)).1).trans
      (by decide)
  · exact ((C7_caret_range (s2l ("^0.0.3"))
      { major := 0, minor := 0, patch := 3, build := [], isIncomplete := true }
      (by decide) (by decide) (by decide) (by decide) (by decide) (by decide)).1).trans
      (by decide)

/-!  ## Inversion of Version.parse  -/

theorem orZero_orNone (k : Int) : orZero (orNone k) = k := by
  unfold orZero orNone
  split <;> simp_all

theorem orNone_getD (k : Int) : (orNone k).getD 0 = k := by
  unfold orNone
  split <;> simp_all

theorem orNone_isNone (k : Int) : (orNone k).isNone = decide (k = 0) := by
  unfold orNone
  split <;> simp_all

theorem parseParts_ok (parts : List (List Char)) (b : List Char) (v : Version)
    (h : parseParts parts b = .ok v) :
    ∃ p0 rest ma mi pa, parts = p0 :: rest ∧
      pyIntParse p0 = some ma ∧ segParse rest[0]? = some mi ∧
      segParse rest[1]? = some pa ∧
      v = Version.init (some ma) (orNone mi) (orNone pa) b := by
  cases parts with
  | nil => exact absurd h (by simp [parseParts])
  | cons p0 rest =>
    rw [parseParts] at h
    split at h
    · next ma mi pa hma hmi hpa =>
      exact ⟨p0, rest, ma, mi, pa, rfl, hma, hmi, hpa, (Except.ok.inj h).symm⟩
    · exact absurd h (by simp)

theorem Version.parse_ok (s : List Char) (v : Version)
    (h : Version.parse s = .ok v) :
    ∃ p0 rest ma mi pa,
      pySplit '.' (pyPartitionChar '-' (Version.clean s)).1 = p0 :: rest ∧
      pyIntParse p0 = some ma ∧ segParse rest[0]? = some mi ∧
      segParse rest[1]? = some pa ∧
      v = Version.init (some ma) (orNone mi) (orNone pa)
        (pyPartitionChar '-' (Version.clean s)).2 := by
  exact parseParts_ok _ _ v h

/-!  ## Claim C3  -/

/-- C3 counterexample: the literal 1.0.3 omits neither minor nor patch, yet the
parsed version carries the partial flag (the idiom int(piece) or None turns the
explicit zero minor into None), so the claimed equivalence fails here. -/
theorem C3_counterexample :
    Version.parse (s2l ("1.0.3")) =
      Except.ok { major := 1, minor := 0, patch := 3, build := [], isIncomplete := true } := by
  decide

/-- C3 (amended): for every parse that succeeds, the partial flag is set
exactly when the parsed minor or patch is zero, i.e. when the component was
omitted or written as zero; the concrete examples of the claim hold. -/
theorem C3_partial_iff_zero_or_omitted :
    (∀ s v, Version.parse s = .ok v →
      (v.isIncomplete = true ↔ (v.minor = 0 ∨ v.patch = 0))) ∧
    Version.parse (s2l ("v1.2.3")) =
      Except.ok { major := 1, minor := 2, patch := 3, build := [], isIncomplete := false } ∧
    Version.parse (s2l ("=1.2")) =
      Except.ok { major := 1, minor := 2, patch := 0, build := [], isIncomplete := true } := by
  refine ⟨?_, by decide, by decide⟩
  intro s v h
  obtain ⟨p0, rest, ma, mi, pa, hparts, hma, hmi, hpa, hv⟩ := Version.parse_ok s v h
  subst hv
  simp [Version.init, orZero_orNone, orNone_isNone]

/-- Witness for C3 at the literal =1.2. -/
theorem C3_witness :
    ({ major := 1, minor := 2, patch := 0, build := [], isIncomplete := true } :
        Version).isIncomplete = true ↔
      (({ major := 1, minor := 2, patch := 0, build := [], isIncomplete := true } :
        Version).minor = 0 ∨
       ({ major := 1, minor := 2, patch := 0, build := [], isIncomplete := true } :
        Version).patch = 0) := by
  exact C3_partial_iff_zero_or_omitted.1 (s2l ("=1.2")) _ (by decide)

/-!  ## Claim C2  -/

theorem pyDictGet_eq_none_iff (b : PyDict) (k : List Char) :
    pyDictGet b k = none ↔ ∀ x ∈ b, x.1 ≠ k := by
  simp [pyDictGet, List.find?_eq_none]

theorem pyDictGet_cons (x : List Char × PyVal) (t : PyDict) (k : List Char) :
    pyDictGet (x :: t) k = if x.1 = k then some x.2 else pyDictGet t k := by
  by_cases h : x.1 = k
  · simp [pyDictGet, List.find?_cons_of_pos, h]
  · simp [pyDictGet, List.find?_cons_of_neg, h]

/-- pyDictGet over a Python dict merge: the overriding dict wins, the base dict
answers otherwise. -/
theorem pyDictGet_merge (a b : PyDict) (k : List Char) :
    pyDictGet (dictMerge a b) k =
      match pyDictGet b k with
      | some w => some w
      | none => pyDictGet a k := by
  induction a with
  | nil =>
    have hnil : dictMerge [] b = b := by simp [dictMerge]
    rw [hnil]
    cases hb : pyDictGet b k with
    | none => rfl
    | some w => rfl
  | cons x t ih =>
    by_cases hbx : (b.any fun q => decide (q.1 = x.1)) = true
    · have hdrop : dictMerge (x :: t) b = dictMerge t b := by
        simp [dictMerge, List.filter_cons, hbx]
      rw [hdrop, ih]
      cases hb : pyDictGet b k with
      | some w => rfl
      | none =>
        have hxk : x.1 ≠ k := by
          intro hk
          rw [List.any_eq_true] at hbx
          obtain ⟨q, hq, hqk⟩ := hbx
          have hq1 : q.1 = x.1 := by simpa using hqk
          exact (pyDictGet_eq_none_iff b k).mp hb q hq (hq1.trans hk)
        rw [pyDictGet_cons, if_neg hxk]
    · have hkeep : dictMerge (x :: t) b = x :: dictMerge t b := by
        simp [dictMerge, List.filter_cons, hbx]
      rw [hkeep, pyDictGet_cons]
      by_cases hxk : x.1 = k
      · have hb : pyDictGet b k = none := by
          rw [pyDictGet_eq_none_iff]
          intro q hq hk
          exact hbx (List.any_eq_true.mpr ⟨q, hq, by simp [hk, hxk]⟩)
        rw [if_pos hxk, hb, pyDictGet_cons, if_pos hxk]
      · rw [if_neg hxk, ih]
        cases hb : pyDictGet b k with
        | some w => rfl
        | none => rw [pyDictGet_cons, if_neg hxk]

/-- C2 counterexample: loading an empty pym.json object and reading the src key
raises KeyError instead of returning the documented default src, because load
merges only DEFAULT_VALUES (the two location keys), not DEFAULT_CONFIG. -/
theorem C2_counterexample :
    PymPackage.getItem (PymPackage.load []) (s2l ("src")) =
      Except.error PyErr.keyError := by rfl

/-- C2 (amended): load defaults exactly install_location and staging_location;
keys present in the file win over the defaults; every other key (src, version,
license, dependencies included) raises KeyError when the file omits it. -/
theorem C2_load_defaults :
    (∀ config : PyDict, pyDictGet config (s2l ("install_location")) = none →
      PymPackage.getItem (PymPackage.load config) (s2l ("install_location")) =
        .ok (.str (s2l ("pym_packages")))) ∧
    (∀ config : PyDict, pyDictGet config (s2l ("staging_location")) = none →
      PymPackage.getItem (PymPackage.load config) (s2l ("staging_location")) =
        .ok (.str (s2l ("pym_packages/.staging")))) ∧
    (∀ (config : PyDict) (k : List Char) (w : PyVal), pyDictGet config k = some w →
      PymPackage.getItem (PymPackage.load config) k = .ok w) ∧
    (∀ (config : PyDict) (k : List Char), k ≠ s2l ("install_location") →
      k ≠ s2l ("staging_location") → pyDictGet config k = none →
      PymPackage.getItem (PymPackage.load config) k = .error .keyError) := by
  refine ⟨?_, ?_, ?_, ?_⟩
  · intro config h
    rw [PymPackage.getItem, PymPackage.load, pyDictGet_merge, h]
    rfl
  · intro config h
    rw [PymPackage.getItem, PymPackage.load, pyDictGet_merge, h]
    rfl
  · intro config k w h
    rw [PymPackage.getItem, PymPackage.load, pyDictGet_merge, h]
  · intro config k h1 h2 h3
    rw [PymPackage.getItem, PymPackage.load, pyDictGet_merge, h3]
    have hd : pyDictGet DEFAULT_VALUES k = none := by
      rw [pyDictGet_eq_none_iff]
      intro x hx
      simp only [DEFAULT_VALUES, List.mem_cons, List.not_mem_nil, or_false] at hx
      rcases hx with hx | hx
      · rw [hx]; intro hk; exact h2 hk.symm
      · rw [hx]; intro hk; exact h1 hk.symm
    rw [hd]

/-- Witness for C2 at a concrete one-key config object. -/
theorem C2_witness :
    PymPackage.getItem (PymPackage.load [(s2l ("name"), PyVal.str (s2l ("demo")))])
        (s2l ("install_location")) =
      Except.ok (PyVal.str (s2l ("pym_packages"))) ∧
    PymPackage.getItem (PymPackage.load [(s2l ("name"), PyVal.str (s2l ("demo")))])
        (s2l ("name")) =
      Except.ok (PyVal.str (s2l ("demo"))) := by
  constructor
  · exact C2_load_defaults.1 [(s2l ("name"), PyVal.str (s2l ("demo")))] rfl
  · exact C2_load_defaults.2.2.1 [(s2l ("name"), PyVal.str (s2l ("demo")))]
      (s2l ("name")) (PyVal.str (s2l ("demo"))) rfl

/-!  ## Claim C9  -/

/-- C9: an uninstall invocation with --save on a name with no directory under
install_location warns about the name, leaves the project dependencies
unchanged (the key is only deleted after a successful directory removal), and
still persists the manifest at the end. -/
theorem C9_uninstall_missing_dir (st : UninstallState) (name : List Char)
    (h : hasDir st name = false) :
    (UninstallCommand.run true [name] st).warnings = st.warnings ++ [name] ∧
    (UninstallCommand.run true [name] st).deps = st.deps ∧
    (UninstallCommand.run true [name] st).saved = true := by
  simp [UninstallCommand.run, uninstallStep, h]

/-- Witness for C9 at a concrete project state. -/
theorem C9_witness :
    (UninstallCommand.run true [s2l ("bar")]
        ⟨[], [(s2l ("foo"), s2l ("^1.0.0"))], [], [], [], false⟩).warnings =
      [s2l ("bar")] ∧
    (UninstallCommand.run true [s2l ("bar")]
        ⟨[], [(s2l ("foo"), s2l ("^1.0.0"))], [], [], [], false⟩).deps =
      [(s2l ("foo"), s2l ("^1.0.0"))] ∧
    (UninstallCommand.run true [s2l ("bar")]
        ⟨[], [(s2l ("foo"), s2l ("^1.0.0"))], [], [], [], false⟩).saved = true := by
  exact C9_uninstall_missing_dir
    ⟨[], [(s2l ("foo"), s2l ("^1.0.0"))], [], [], [], false⟩ (s2l ("bar")) (by decide)

/-!  ## Round-trip machinery for Claim C8: decimal printing and parsing  -/

theorem digitChar_isPyDigit (k : Nat) (h : k < 10) : isPyDigit (digitChar k) = true := by
  interval_cases k <;> decide

theorem charVal_digitChar (k : Nat) (h : k < 10) : charVal (digitChar k) = k := by
  interval_cases k <;> decide

theorem ne_of_isPyDigit (c d : Char) (h : isPyDigit c = true) (hd : isPyDigit d = false) :
    c ≠ d := by
  intro hc
  subst hc
  rw [h] at hd
  exact Bool.noConfusion hd

theorem isSpace_of_isPyDigit (c : Char) (h : isPyDigit c = true) : isSpace c = false := by
  rcases hc : isSpace c with _ | _
  · rfl
  · exfalso
    simp only [isSpace, Bool.or_eq_true, decide_eq_true_eq] at hc
    rcases hc with ((((hc | hc) | hc) | hc) | hc) | hc <;>
      (subst hc; exact absurd h (by decide))

theorem natDigitsGo_acc (fuel : Nat) :
    ∀ n acc, natDigitsGo fuel n acc = natDigitsGo fuel n [] ++ acc := by
  induction fuel with
  | zero => intro n acc; rfl
  | succ fuel ih =>
    intro n acc
    rw [natDigitsGo, natDigitsGo]
    by_cases h : n < 10
    · rw [if_pos h, if_pos h]; rfl
    · rw [if_neg h, if_neg h, ih (n / 10), ih (n / 10) [digitChar (n % 10)]]
      simp

theorem natDigitsGo_fuel :
    ∀ f1 f2 n acc, n < f1 → n < f2 → natDigitsGo f1 n acc = natDigitsGo f2 n acc := by
  intro f1
  induction f1 with
  | zero => intro f2 n acc h _; omega
  | succ f1 ih =>
    intro f2 n acc h1 h2
    cases f2 with
    | zero => omega
    | succ f2 =>
      rw [natDigitsGo, natDigitsGo]
      by_cases h : n < 10
      · rw [if_pos h, if_pos h]
      · rw [if_neg h, if_neg h]
        exact ih f2 (n / 10) _ (by omega) (by omega)

theorem natDigits_lt (n : Nat) (h : n < 10) : natDigits n = [digitChar n] := by
  rw [natDigits, natDigitsGo, if_pos h]

theorem natDigits_ge (n : Nat) (h : ¬ n < 10) :
    natDigits n = natDigits (n / 10) ++ [digitChar (n % 10)] := by
  rw [natDigits, natDigitsGo, if_neg h,
    natDigitsGo_fuel n (n / 10 + 1) (n / 10) _ (by omega) (by omega),
    natDigitsGo_acc]
  rfl

theorem natDigits_ne_nil (n : Nat) : natDigits n ≠ [] := by
  by_cases h : n < 10
  · rw [natDigits_lt n h]; simp
  · rw [natDigits_ge n h]; simp

theorem natDigits_digits : ∀ n, ∀ c ∈ natDigits n, isPyDigit c = true := by
  intro n
  induction n using Nat.strong_induction_on with
  | _ n ih =>
    by_cases h : n < 10
    · rw [natDigits_lt n h]
      intro c hc
      simp only [List.mem_singleton] at hc
      subst hc
      exact digitChar_isPyDigit n h
    · rw [natDigits_ge n h]
      intro c hc
      rcases List.mem_append.mp hc with hc | hc
      · exact ih (n / 10) (by omega) c hc
      · simp only [List.mem_singleton] at hc
        subst hc
        exact digitChar_isPyDigit (n % 10) (by omega)

theorem foldl_natDigits :
    ∀ n acc, (natDigits n).foldl (fun a c => 10 * a + charVal c) acc =
      acc * 10 ^ (natDigits n).length + n := by
  intro n
  induction n using Nat.strong_induction_on with
  | _ n ih =>
    intro acc
    by_cases h : n < 10
    · rw [natDigits_lt n h, List.foldl_cons, List.foldl_nil, charVal_digitChar n h]
      simp
      omega
    · rw [natDigits_ge n h, List.foldl_append, ih (n / 10) (by omega) acc,
        List.foldl_cons, List.foldl_nil, charVal_digitChar (n % 10) (by omega),
        List.length_append, List.length_cons, List.length_nil]
      have hdm : 10 * (n / 10) + n % 10 = n := Nat.div_add_mod n 10
      have hstep : 10 * (acc * 10 ^ (natDigits (n / 10)).length + n / 10) + n % 10 =
          acc * (10 ^ (natDigits (n / 10)).length * 10) + (10 * (n / 10) + n % 10) := by
        ring
      rw [hstep, hdm, ← pow_succ]

theorem pyDigitsRun_cons_digit (c : Char) (t : List Char) (acc : Nat)
    (hc : isPyDigit c = true) :
    pyDigitsRun (c :: t) acc = pyDigitsRun t (10 * acc + charVal c) := by
  conv_lhs => rw [pyDigitsRun.eq_def]
  simp [hc]

theorem pyDigitsRun_digits :
    ∀ (l : List Char) (acc : Nat), (∀ c ∈ l, isPyDigit c = true) →
      pyDigitsRun l acc = some (l.foldl (fun a c => 10 * a + charVal c) acc) := by
  intro l
  induction l with
  | nil => intro acc _; rfl
  | cons c t ih =>
    intro acc hall
    have hc : isPyDigit c = true := hall c (by simp)
    rw [pyDigitsRun_cons_digit c t acc hc, List.foldl_cons]
    exact ih _ (fun d hd => hall d (by simp [hd]))

theorem pyDigitsStart_natDigits (n : Nat) : pyDigitsStart (natDigits n) = some n := by
  rcases hND : natDigits n with _ | ⟨c, rest⟩
  · exact absurd hND (natDigits_ne_nil n)
  · have hall := natDigits_digits n
    rw [hND] at hall
    have hc : isPyDigit c = true := hall c (by simp)
    have h0 : (natDigits n).foldl (fun a c => 10 * a + charVal c) 0 = n := by
      rw [foldl_natDigits n 0]
      simp
    rw [hND, List.foldl_cons] at h0
    rw [pyDigitsStart, if_pos hc,
      pyDigitsRun_digits rest (charVal c) (fun d hd => hall d (by simp [hd]))]
    rw [show 10 * 0 + charVal c = charVal c by omega] at h0
    rw [h0]

/-!  ## Round-trip machinery: stripping, partition and split lemmas  -/

theorem dropWhile_eq_self_of_all {p : Char → Bool} (l : List Char)
    (h : ∀ c ∈ l, p c = false) : l.dropWhile p = l := by
  cases l with
  | nil => rfl
  | cons c t =>
    rw [List.dropWhile_cons, h c (by simp)]
    simp

theorem dropWhile_head_false {p : Char → Bool} :
    ∀ (l : List Char) (c : Char) (t : List Char), l.dropWhile p = c :: t → p c = false := by
  intro l
  induction l with
  | nil => intro c t h; exact absurd h (by simp)
  | cons a rest ih =>
    intro c t h
    rw [List.dropWhile_cons] at h
    by_cases hp : p a = true
    · rw [if_pos hp] at h
      exact ih c t h
    · rw [if_neg hp] at h
      obtain ⟨ha, -⟩ := List.cons.inj h
      subst ha
      exact Bool.eq_false_iff.mpr hp

theorem pyStrip_of_no_space (l : List Char) (h : ∀ c ∈ l, isSpace c = false) :
    pyStrip l = l := by
  unfold pyStrip dropTrailing
  rw [dropWhile_eq_self_of_all l h,
    dropWhile_eq_self_of_all l.reverse (fun c hc => h c (List.mem_reverse.mp hc)),
    List.reverse_reverse]

theorem pyStrip_eq_self_of (l : List Char) (a z : Char) (m m2 : List Char)
    (hl : l = a :: m) (hr : l.reverse = z :: m2)
    (ha : isSpace a = false) (hz : isSpace z = false) : pyStrip l = l := by
  have h1 : l.dropWhile isSpace = l := by
    rw [hl, List.dropWhile_cons, ha]
    simp
  have h2 : l.reverse.dropWhile isSpace = l.reverse := by
    rw [hr, List.dropWhile_cons, hz]
    simp
  unfold pyStrip dropTrailing
  rw [h1, h2, List.reverse_reverse]

theorem pyStrip_subset (l : List Char) : ∀ c ∈ pyStrip l, c ∈ l := by
  intro c hc
  unfold pyStrip dropTrailing at hc
  rw [List.mem_reverse] at hc
  have h1 : c ∈ (l.dropWhile isSpace).reverse :=
    (List.dropWhile_sublist _).subset hc
  rw [List.mem_reverse] at h1
  exact (List.dropWhile_sublist _).subset h1

theorem pyLstrip_cons_of_not_mem (chars : List Char) (c : Char) (t : List Char)
    (hc : c ∉ chars) : pyLstrip chars (c :: t) = c :: t := by
  unfold pyLstrip
  rw [List.dropWhile_cons]
  simp [hc]

theorem pyPartitionChar_not_mem (sep : Char) (l : List Char) (h : sep ∉ l) :
    pyPartitionChar sep l = (l, []) := by
  induction l with
  | nil => rfl
  | cons c t ih =>
    have hc : ¬(c = sep) := fun e => h (e ▸ List.mem_cons_self c t)
    rw [pyPartitionChar, if_neg hc, ih (fun hm => h (List.mem_cons_of_mem c hm))]

theorem pyPartitionChar_append (sep : Char) (pre post : List Char) (h : sep ∉ pre) :
    pyPartitionChar sep (pre ++ sep :: post) = (pre, post) := by
  induction pre with
  | nil => rw [List.nil_append, pyPartitionChar, if_pos rfl]
  | cons c t ih =>
    have hc : ¬(c = sep) := fun e => h (e ▸ List.mem_cons_self c t)
    rw [List.cons_append, pyPartitionChar, if_neg hc,
      ih (fun hm => h (List.mem_cons_of_mem c hm))]

theorem pyPartitionChar_fst_not_mem (sep : Char) : ∀ l, sep ∉ (pyPartitionChar sep l).1 := by
  intro l
  induction l with
  | nil => simp [pyPartitionChar]
  | cons c t ih =>
    by_cases hc : c = sep
    · rw [pyPartitionChar, if_pos hc]
      simp
    · rw [pyPartitionChar, if_neg hc]
      intro hm
      rcases List.mem_cons.mp hm with hm | hm
      · exact hc hm.symm
      · exact ih hm

theorem pyPartitionChar_decomp (sep : Char) : ∀ l,
    (pyPartitionChar sep l).2 ≠ [] →
    l = (pyPartitionChar sep l).1 ++ sep :: (pyPartitionChar sep l).2 := by
  intro l
  induction l with
  | nil => intro h; exact absurd rfl h
  | cons c t ih =>
    intro h
    by_cases hc : c = sep
    · rw [pyPartitionChar, if_pos hc]
      simp [hc]
    · rw [pyPartitionChar, if_neg hc] at h ⊢
      have ht := ih (by simpa using h)
      simp only [List.cons_append, List.cons.injEq, true_and]
      exact ht

theorem pySplit_ne_nil (sep : Char) : ∀ l, pySplit sep l ≠ [] := by
  intro l
  cases l with
  | nil => simp [pySplit]
  | cons c t =>
    rw [pySplit]
    rcases hs : pySplit sep t with _ | ⟨h1, t1⟩
    · simp
    · by_cases hc : c = sep <;> simp [hc]

theorem pySplit_not_mem (sep : Char) (l : List Char) (h : sep ∉ l) :
    pySplit sep l = [l] := by
  induction l with
  | nil => rfl
  | cons c t ih =>
    have hc : ¬(c = sep) := fun e => h (e ▸ List.mem_cons_self c t)
    rw [pySplit, ih (fun hm => h (List.mem_cons_of_mem c hm))]
    simp [hc]

theorem pySplit_append (sep : Char) (a rest : List Char) (h : sep ∉ a) :
    pySplit sep (a ++ sep :: rest) = a :: pySplit sep rest := by
  induction a with
  | nil =>
    rw [List.nil_append, pySplit]
    rcases hs : pySplit sep rest with _ | ⟨h1, t1⟩
    · exact absurd hs (pySplit_ne_nil sep rest)
    · simp
  | cons c t ih =>
    have hc : ¬(c = sep) := fun e => h (e ▸ List.mem_cons_self c t)
    rw [List.cons_append, pySplit, ih (fun hm => h (List.mem_cons_of_mem c hm))]
    simp [hc]

theorem pySplit_subset (sep : Char) :
    ∀ l piece, piece ∈ pySplit sep l → ∀ c ∈ piece, c ∈ l := by
  intro l
  induction l with
  | nil =>
    intro piece hp c hc
    simp [pySplit] at hp
    subst hp
    exact absurd hc (by simp)
  | cons a t ih =>
    intro piece hp c hc
    rw [pySplit] at hp
    rcases hs : pySplit sep t with _ | ⟨h1, t1⟩
    · exact absurd hs (pySplit_ne_nil sep t)
    · rw [hs] at hp
      by_cases ha : a = sep
      · have hp2 : piece = [] ∨ piece ∈ h1 :: t1 := by simpa [ha] using hp
        rcases hp2 with hp3 | hp3
        · subst hp3; exact absurd hc (by simp)
        · exact List.mem_cons_of_mem a (ih piece (by rw [hs]; exact hp3) c hc)
      · have hp2 : piece = a :: h1 ∨ piece ∈ t1 := by simpa [ha] using hp
        rcases hp2 with hp3 | hp3
        · subst hp3
          rcases List.mem_cons.mp hc with hc2 | hc2
          · exact hc2 ▸ List.mem_cons_self a t
          · exact List.mem_cons_of_mem a (ih h1 (by rw [hs]; simp) c hc2)
        · exact List.mem_cons_of_mem a (ih piece (by rw [hs]; simp [hp3]) c hc)

/-!  ## Round-trip machinery: int parsing of printed digits  -/

theorem intRepr_nonneg (k : Int) (h : 0 ≤ k) : intRepr k = natDigits k.toNat := by
  unfold intRepr
  rw [if_neg (by omega)]

theorem pyIntParse_natDigits (n : Nat) : pyIntParse (natDigits n) = some (Int.ofNat n) := by
  have hall := natDigits_digits n
  have hns : ∀ c ∈ natDigits n, isSpace c = false :=
    fun c hc => isSpace_of_isPyDigit c (hall c hc)
  unfold pyIntParse
  rw [pyStrip_of_no_space _ hns]
  rcases hND : natDigits n with _ | ⟨c, rest⟩
  · exact absurd hND (natDigits_ne_nil n)
  · rw [hND] at hall
    have hc : isPyDigit c = true := hall c (by simp)
    have hcp : ¬(c = '+') := ne_of_isPyDigit c '+' hc (by decide)
    have hcm : ¬(c = '-') := ne_of_isPyDigit c '-' hc (by decide)
    rw [pyIntCore, if_neg hcp, if_neg hcm, ← hND, pyDigitsStart_natDigits n]
    rfl

theorem pyIntParse_nonneg (l : List Char) (k : Int) (h : pyIntParse l = some k)
    (hm : ('-') ∉ l) : 0 ≤ k := by
  unfold pyIntParse at h
  rcases hs : pyStrip l with _ | ⟨c, rest⟩
  · rw [hs] at h
    exact absurd h (by simp [pyIntCore])
  · rw [hs, pyIntCore] at h
    by_cases hp : c = '+'
    · rw [if_pos hp] at h
      rcases Option.map_eq_some'.mp h with ⟨m, -, hk⟩
      rw [← hk]
      exact Int.natCast_nonneg m
    · by_cases hmn : c = '-'
      · exfalso
        have hcm : c ∈ pyStrip l := by rw [hs]; simp
        exact hm (hmn ▸ pyStrip_subset l c hcm)
      · rw [if_neg hp, if_neg hmn] at h
        rcases Option.map_eq_some'.mp h with ⟨m, -, hk⟩
        rw [← hk]
        exact Int.natCast_nonneg m

/-!  ## Round-trip machinery: reparsing a printed version  -/

theorem pyIntParse_natDigits_toNat (k : Int) (h : 0 ≤ k) :
    pyIntParse (natDigits k.toNat) = some k := by
  rw [pyIntParse_natDigits]
  congr 1
  exact Int.toNat_of_nonneg h

/-- Reparsing the printed form of a version whose fields can arise from a
parse (nonnegative numerics, partial flag tracking the zero components, build
empty or ending in a non-whitespace character) returns the version itself. -/
theorem version_parse_print (v : Version)
    (hma : 0 ≤ v.major) (hmi : 0 ≤ v.minor) (hpa : 0 ≤ v.patch)
    (hinc : v.isIncomplete = (decide (v.minor = 0) || decide (v.patch = 0)))
    (hb : v.build = [] ∨ ∃ z m2, v.build.reverse = z :: m2 ∧ isSpace z = false) :
    Version.parse (Version.str v) = .ok v := by
  obtain ⟨ma, mi, pa, b, inc⟩ := v
  dsimp only at hma hmi hpa hinc hb
  have hA := natDigits_digits ma.toNat
  have hB := natDigits_digits mi.toNat
  have hC := natDigits_digits pa.toNat
  obtain ⟨a0, arest, hA0⟩ := List.exists_cons_of_ne_nil (natDigits_ne_nil ma.toNat)
  have ha0 : isPyDigit a0 = true := hA a0 (by rw [hA0]; simp)
  have hdotA : ('.') ∉ natDigits ma.toNat := fun hm => absurd (hA '.' hm) (by decide)
  have hdotB : ('.') ∉ natDigits mi.toNat := fun hm => absurd (hB '.' hm) (by decide)
  have hdotC : ('.') ∉ natDigits pa.toNat := fun hm => absurd (hC '.' hm) (by decide)
  have hAbody : ∀ c ∈ natDigits ma.toNat ++
      '.' :: (natDigits mi.toNat ++ '.' :: natDigits pa.toNat),
      isPyDigit c = true ∨ c = '.' := by
    intro c hc
    simp only [List.mem_append, List.mem_cons] at hc
    rcases hc with hc | hc | hc | hc | hc
    · exact Or.inl (hA c hc)
    · exact Or.inr hc
    · exact Or.inl (hB c hc)
    · exact Or.inr hc
    · exact Or.inl (hC c hc)
  have hnodash : ('-') ∉ natDigits ma.toNat ++
      '.' :: (natDigits mi.toNat ++ '.' :: natDigits pa.toNat) := by
    intro hm
    rcases hAbody '-' hm with hd | hd
    · exact absurd hd (by decide)
    · exact absurd hd (by decide)
  have hnospace : ∀ c ∈ natDigits ma.toNat ++
      '.' :: (natDigits mi.toNat ++ '.' :: natDigits pa.toNat), isSpace c = false := by
    intro c hc
    rcases hAbody c hc with hd | hd
    · exact isSpace_of_isPyDigit c hd
    · subst hd; decide
  have ha0eq : a0 ∉ ['=', 'v'] := by
    intro hm
    rcases List.mem_cons.mp hm with hm | hm
    · exact ne_of_isPyDigit a0 '=' ha0 (by decide) hm
    · rcases List.mem_cons.mp hm with hm | hm
      · exact ne_of_isPyDigit a0 'v' ha0 (by decide) hm
      · exact absurd hm (by simp)
  have hsplitAbody : pySplit '.' (natDigits ma.toNat ++
      '.' :: (natDigits mi.toNat ++ '.' :: natDigits pa.toNat)) =
      [natDigits ma.toNat, natDigits mi.toNat, natDigits pa.toNat] := by
    rw [pySplit_append '.' _ _ hdotA, pySplit_append '.' _ _ hdotB,
      pySplit_not_mem '.' _ hdotC]
  have hparse : parseParts
      [natDigits ma.toNat, natDigits mi.toNat, natDigits pa.toNat] b =
      .ok ⟨ma, mi, pa, b, inc⟩ := by
    rw [parseParts]
    rw [show ([natDigits mi.toNat, natDigits pa.toNat] : List (List Char))[0]? =
      some (natDigits mi.toNat) from rfl]
    rw [show ([natDigits mi.toNat, natDigits pa.toNat] : List (List Char))[1]? =
      some (natDigits pa.toNat) from rfl]
    rw [segParse, segParse]
    rw [pyIntParse_natDigits_toNat ma hma, pyIntParse_natDigits_toNat mi hmi,
      pyIntParse_natDigits_toNat pa hpa]
    simp only [Version.init, orZero, Option.getD_some, orNone_getD, orNone_isNone,
      Except.ok.injEq, Version.mk.injEq]
    simp [hinc]
  rcases hb with hbnil | ⟨z, m2, hzrev, hzns⟩
  · subst hbnil
    have hstr : Version.str ⟨ma, mi, pa, [], inc⟩ = natDigits ma.toNat ++
        '.' :: (natDigits mi.toNat ++ '.' :: natDigits pa.toNat) := by
      simp [Version.str, intRepr_nonneg ma hma, intRepr_nonneg mi hmi,
        intRepr_nonneg pa hpa]
    rw [hstr]
    have hclean : Version.clean (natDigits ma.toNat ++
        '.' :: (natDigits mi.toNat ++ '.' :: natDigits pa.toNat)) =
        natDigits ma.toNat ++ '.' :: (natDigits mi.toNat ++ '.' :: natDigits pa.toNat) := by
      unfold Version.clean
      rw [pyStrip_of_no_space _ hnospace, hA0, List.cons_append,
        pyLstrip_cons_of_not_mem _ a0 _ ha0eq, ← List.cons_append, ← hA0]
    unfold Version.parse
    rw [hclean, pyPartitionChar_not_mem '-' _ hnodash]
    rw [hsplitAbody]
    exact hparse
  · have hstr : Version.str ⟨ma, mi, pa, b, inc⟩ = (natDigits ma.toNat ++
        '.' :: (natDigits mi.toNat ++ '.' :: natDigits pa.toNat)) ++ '-' :: b := by
      have hbne : b ≠ [] := by
        intro he
        rw [he] at hzrev
        exact absurd hzrev (by simp)
      simp [Version.str, intRepr_nonneg ma hma, intRepr_nonneg mi hmi,
        intRepr_nonneg pa hpa, hbne]
    rw [hstr]
    have hconsform : (natDigits ma.toNat ++
        '.' :: (natDigits mi.toNat ++ '.' :: natDigits pa.toNat)) ++ '-' :: b =
        a0 :: (arest ++ '.' :: (natDigits mi.toNat ++ '.' :: natDigits pa.toNat) ++ '-' :: b) := by
      rw [hA0]
      simp
    have hrevform : ∃ t2, ((natDigits ma.toNat ++
        '.' :: (natDigits mi.toNat ++ '.' :: natDigits pa.toNat)) ++ '-' :: b).reverse =
        z :: (t2 : List Char) := by
      rw [List.reverse_append, List.reverse_cons, hzrev]
      refine ⟨m2 ++ '-' :: (natDigits ma.toNat ++
        '.' :: (natDigits mi.toNat ++ '.' :: natDigits pa.toNat)).reverse, ?_⟩
      simp
    obtain ⟨t2, hrev⟩ := hrevform
    have hstrip : pyStrip ((natDigits ma.toNat ++
        '.' :: (natDigits mi.toNat ++ '.' :: natDigits pa.toNat)) ++ '-' :: b) =
        (natDigits ma.toNat ++
        '.' :: (natDigits mi.toNat ++ '.' :: natDigits pa.toNat)) ++ '-' :: b :=
      pyStrip_eq_self_of _ a0 z _ t2 hconsform hrev
        (isSpace_of_isPyDigit a0 ha0) hzns
    have hclean : Version.clean ((natDigits ma.toNat ++
        '.' :: (natDigits mi.toNat ++ '.' :: natDigits pa.toNat)) ++ '-' :: b) =
        (natDigits ma.toNat ++
        '.' :: (natDigits mi.toNat ++ '.' :: natDigits pa.toNat)) ++ '-' :: b := by
      unfold Version.clean
      rw [hstrip, hconsform, pyLstrip_cons_of_not_mem _ a0 _ ha0eq, ← hconsform]
    unfold Version.parse
    rw [hclean, pyPartitionChar_append '-' _ b hnodash]
    rw [hsplitAbody]
    exact hparse

/-!  ## Claim C8  -/

/-- C8: for every string on which Version.parse succeeds, parsing the printed
form of the result succeeds and yields the very same version (structural
equality, which entails the string-based Python equality of the source). -/
theorem C8_version_round_trip (s : List Char) (v : Version)
    (h : Version.parse s = .ok v) :
    Version.parse (Version.str v) = .ok v := by
  obtain ⟨p0, rest, ma, mi, pa, hparts, hma0, hmi0, hpa0, hv⟩ := Version.parse_ok s v h
  have hdash := pyPartitionChar_fst_not_mem '-' (Version.clean s)
  have hp0sub : ∀ c ∈ p0, c ∈ (pyPartitionChar '-' (Version.clean s)).1 :=
    pySplit_subset '.' _ p0 (by rw [hparts]; simp)
  have hmaN : 0 ≤ ma :=
    pyIntParse_nonneg p0 ma hma0 (fun hm => hdash (hp0sub '-' hm))
  have hmiN : 0 ≤ mi := by
    rcases hr0 : rest[0]? with _ | p1
    · rw [hr0] at hmi0
      simp only [segParse, Option.some.injEq] at hmi0
      omega
    · rw [hr0] at hmi0
      simp only [segParse] at hmi0
      have hp1sub : ∀ c ∈ p1, c ∈ (pyPartitionChar '-' (Version.clean s)).1 :=
        pySplit_subset '.' _ p1
          (by rw [hparts]; exact List.mem_cons_of_mem _ (List.getElem?_mem hr0))
      exact pyIntParse_nonneg p1 mi hmi0 (fun hm => hdash (hp1sub '-' hm))
  have hpaN : 0 ≤ pa := by
    rcases hr1 : rest[1]? with _ | p2
    · rw [hr1] at hpa0
      simp only [segParse, Option.some.injEq] at hpa0
      omega
    · rw [hr1] at hpa0
      simp only [segParse] at hpa0
      have hp2sub : ∀ c ∈ p2, c ∈ (pyPartitionChar '-' (Version.clean s)).1 :=
        pySplit_subset '.' _ p2
          (by rw [hparts]; exact List.mem_cons_of_mem _ (List.getElem?_mem hr1))
      exact pyIntParse_nonneg p2 pa hpa0 (fun hm => hdash (hp2sub '-' hm))
  have hbcond : (pyPartitionChar '-' (Version.clean s)).2 = [] ∨
      ∃ z m2, (pyPartitionChar '-' (Version.clean s)).2.reverse = z :: m2 ∧
        isSpace z = false := by
    by_cases hb2 : (pyPartitionChar '-' (Version.clean s)).2 = []
    · exact Or.inl hb2
    · right
      have hdec := pyPartitionChar_decomp '-' (Version.clean s) hb2
      obtain ⟨P1, P2, hP⟩ : ∃ P1 P2, pyPartitionChar '-' (Version.clean s) = (P1, P2) :=
        ⟨_, _, rfl⟩
      rw [hP] at hdec hb2 ⊢
      dsimp only at hdec hb2 ⊢
      rcases hz : P2.reverse with _ | ⟨z, m2⟩
      · rw [List.reverse_eq_nil_iff] at hz
        exact absurd hz hb2
      · refine ⟨z, m2, rfl, ?_⟩
        obtain ⟨tk, htk⟩ : ∃ tk, pyStrip s = tk ++ Version.clean s := by
          refine ⟨(pyStrip s).takeWhile (fun c => decide (c ∈ (['=', 'v'] : List Char))), ?_⟩
          unfold Version.clean pyLstrip
          exact (List.takeWhile_append_dropWhile _ _).symm
        have hrev : (pyStrip s).reverse =
            ((s.dropWhile isSpace).reverse).dropWhile isSpace := by
          unfold pyStrip dropTrailing
          rw [List.reverse_reverse]
        have hfull : (pyStrip s).reverse = z :: (m2 ++ '-' ::
            (P1.reverse ++ tk.reverse)) := by
          rw [htk, hdec]
          simp [List.reverse_append, hz]
        rw [hrev] at hfull
        exact dropWhile_head_false _ z _ hfull
  subst hv
  apply version_parse_print
  · simpa [Version.init, orZero] using hmaN
  · simpa [Version.init, orZero_orNone] using hmiN
  · simpa [Version.init, orZero_orNone] using hpaN
  · simp [Version.init, orNone_isNone, orZero_orNone]
  · simpa [Version.init] using hbcond

/-- Witness for C8 at the literal v1.2.3. -/
theorem C8_witness :
    Version.parse (Version.str
      { major := 1, minor := 2, patch := 3, build := [], isIncomplete := false }) =
    Except.ok { major := 1, minor := 2, patch := 3, build := [], isIncomplete := false } :=
  C8_version_round_trip (s2l ("v1.2.3")) _ (by decide)
